import Mathlib

/-
Verification development for the LaTeX semantic completer
(src/latex_completer.py).  The Python 2 source is shallowly embedded:

* lines of text are modeled as `List Char`;
* filesystem paths are modeled as lists of components (`List String`),
  root first, so that `os.path.dirname` is `List.dropLast`;
* the mutable completer object (`self._completion_target`,
  `self._main_directory`, `self._files`, `self._cached_data`,
  `self._d_cache_hits`, `self._goto_labels`) is modeled as the record
  `CompleterState`; Python dictionaries are modeled as association lists
  where assignment conses a new cell that shadows older ones;
* the filesystem and file contents (`os.walk`, `os.listdir`,
  `os.path.getmtime`, `codecs.open`) are supplied by a `World` record;
* a raised exception (`KeyError` from a dictionary access, or the
  `RuntimeError` raised by `_GoToDefinition`) is modeled as `none` of an
  `Option` result.

All regular expressions of the source are compiled by hand into
executable list scans; each such definition carries a comment deriving
its semantics from the Python 2 pattern (where the escape `\l` in
`r".*\label{(.*)}.*"` denotes a literal letter l).
-/

/-- Association list lookup, modeling a Python dictionary read. -/
def dlookup {K V : Type} [DecidableEq K] (k : K) : List (K × V) → Option V
  | [] => none
  | (k', v) :: m => if k' = k then some v else dlookup k m

/-- Association list update, modeling a Python dictionary assignment:
the new cell shadows any older cell with the same key. -/
def dinsert {K V : Type} (k : K) (v : V) (m : List (K × V)) : List (K × V) :=
  (k, v) :: m

/-- Sequence of dictionary assignments, first pair applied first. -/
def dinsertAll {K V : Type} (ps : List (K × V)) (m : List (K × V)) : List (K × V) :=
  ps.foldl (fun acc p => dinsert p.1 p.2 acc) m

/-- The value of the last pair of `ps` carrying key `k`, if any. -/
def lastAssoc {K V : Type} [DecidableEq K] (k : K) : List (K × V) → Option V
  | [] => none
  | (k', v) :: ps =>
    match lastAssoc k ps with
    | some r => some r
    | none => if k' = k then some v else none

/-- The prefix of `l` that precedes the last occurrence of `c`
(or `l` itself when `c` does not occur). -/
def upToLast (c : Char) (l : List Char) : List Char :=
  match l.reverse.dropWhile (fun x => x != c) with
  | [] => l
  | _ :: rest => rest.reverse

/-- The suffix of `l` that follows the last occurrence of `c`
(or `l` itself when `c` does not occur). -/
def afterLast (c : Char) (l : List Char) : List Char :=
  (l.reverse.takeWhile (fun x => x != c)).reverse

/-- Index of the first closing brace of `l`, if any. -/
def firstIdxOfClose : List Char → Option Nat
  | [] => none
  | c :: cs => if c = '\x7d' then some 0 else (firstIdxOfClose cs).map (· + 1)

/-- Python `unicode.rstrip()`: remove trailing whitespace. -/
def pyRstrip (l : List Char) : List Char :=
  (l.reverse.dropWhile Char.isWhitespace).reverse

/-- Python `str.split(sep)` with an explicit one-character separator:
empty fields are kept, and the empty string splits to one empty field. -/
def pySplit : List Char → List (List Char)
  | [] => [[]]
  | c :: cs =>
    if c = ' ' then [] :: pySplit cs
    else
      match pySplit cs with
      | [] => [[c]]
      | w :: ws => (c :: w) :: ws

/-- Python `' '.join(ws)`. -/
def pyJoin : List (List Char) → List Char
  | [] => []
  | [w] => w
  | w :: ws => w ++ ' ' :: pyJoin ws

/-- A filesystem path as its components, root first;
`os.path.dirname` is `List.dropLast`. -/
abbrev FPath := List String

/-- A completion candidate as built by `responses.BuildCompletionData`
with a single argument (the insertion text).  The structured-parser
strategy additionally attaches menu text; it depends on the external
`bibtexparser` package and is not modeled here. -/
structure Candidate where
  insertion : List Char
deriving DecidableEq, Repr

/-- Model of `responses.BuildCompletionData(text)`. -/
def BuildCompletionData (text : List Char) : Candidate := ⟨text⟩

/-- The label location table `self._goto_labels`:
identifier to (file, 1-based line, 0-based column). -/
abbrev GotoLabels := List (List Char × (FPath × Nat × Nat))

/-- The mutable fields of the `LatexCompleter` object (lines 61 to 70). -/
structure CompleterState where
  completionTarget : String
  mainDirectory : Option FPath
  files : List (FPath × Int)
  cachedData : List (FPath × List Candidate)
  dCacheHits : Nat
  gotoLabels : GotoLabels
deriving DecidableEq

/-- The state built by `__init__` (lines 61 to 70). -/
def initialState : CompleterState :=
  { completionTarget := "none"
    mainDirectory := none
    files := []
    cachedData := []
    dCacheHits := 0
    gotoLabels := [] }

/-- The filesystem and file contents seen by the completer:
the list of all existing files (as component paths), the modification
time of each file, and the lines of each file. -/
structure World where
  allFiles : List FPath
  mtime : FPath → Int
  lines : FPath → List (List Char)

/-- Python `str.endswith`, computed on character lists so that concrete
instances reduce in the kernel. -/
def strEndsWith (s suffix : String) : Bool :=
  suffix.toList.isSuffixOf s.toList

/-- Model of `os.listdir(d)`: each entry of the directory `d`, that is,
the next component of every file path lying under `d`.  Names may repeat;
the source only ever asks whether some entry has a given suffix. -/
def listdir (w : World) (d : FPath) : List String :=
  w.allFiles.filterMap (fun f => if d.isPrefixOf f then (f.drop d.length).head? else none)

/-- Model of `_Walk` (lines 104 to 108): every file strictly below `top`
whose name ends with `what`.  When `top` is itself a file (or does not
exist) no file lies strictly below it and the walk yields nothing, which
matches `os.walk` swallowing the error on a non-directory argument. -/
def Walk (w : World) (top : FPath) (what : String) : List FPath :=
  w.allFiles.filter (fun f =>
    top.isPrefixOf f && !(f == top) &&
      (match f.getLast? with
       | some nm => strEndsWith nm what
       | none => false))

/-- Model of `smart_truncate` (lines 23 to 27).  In the source `length`
defaults to 30 and `suffix` to the three-dot ellipsis; the only call site
uses the defaults. -/
def smart_truncate (content : List Char) (length : Nat) (suffix : List Char) : List Char :=
  if content.length ≤ length then content
  else pyJoin ((pySplit (content.take (length + 1 - suffix.length))).dropLast) ++ suffix

/-- The regex `cite.*\{` of `self._cite_reg` (line 65) as a Boolean
match test: some occurrence of `cite` is followed, at or after its end,
by an opening brace. -/
def citeMatch (line : List Char) : Bool :=
  (List.range line.length).any (fun i =>
    "cite".toList.isPrefixOf (line.drop i) && (line.drop (i + 4)).contains '\x7b')

/-- The regex `ref\{|pageref\{` of `self._ref_reg` (line 66) as a Boolean
match test: since `pageref\x7b` contains `ref\x7b`, the regex matches
exactly when `ref\x7b` occurs somewhere in the line. -/
def refMatch (line : List Char) : Bool :=
  (List.range line.length).any (fun i => "ref\x7b".toList.isPrefixOf (line.drop i))

/-- The upward search of `_ComputeMainDirectory`, structured over the
reversed component list of the current directory: the head of the
reversed list is the last component, so taking the tail is exactly
`os.path.dirname(os.path.normpath(path))`.  At the filesystem root (the
empty list) the parent equals the current directory and the recursion
stops, matching the `new_path == path or new_path == ""` test of
line 121. -/
def FindMainRev (w : World) (what : String) : List String → Option FPath
  | [] =>
    if (listdir w []).any (fun file => strEndsWith file what) then some [] else none
  | c :: rest =>
    if (listdir w (c :: rest).reverse).any (fun file => strEndsWith file what) then
      some (c :: rest).reverse
    else FindMainRev w what rest

/-- Model of the inner `FindMain` of `_ComputeMainDirectory`
(lines 111 to 125): list the entries of `path`; if one ends with `what`
this directory is the answer; otherwise recurse on the parent
directory. -/
def FindMain (w : World) (what : String) (path : FPath) : Option FPath :=
  FindMainRev w what path.reverse

/-- Model of `_ComputeMainDirectory` (lines 110 to 134).  In the source
`FindMain` assigns `self._main_directory` on success and the fallback
branch assigns the document path itself; here the new state is returned.
The Boolean records whether the root was found; `false` corresponds to
the non-fatal stderr diagnostic `Unable to set the main directory...`
of line 132. -/
def ComputeMainDirectory (w : World) (st : CompleterState) (filepath : FPath) :
    CompleterState × Bool :=
  match FindMain w ".bib" filepath.dropLast with
  | some d => ({st with mainDirectory := some d}, true)
  | none => ({st with mainDirectory := some filepath}, false)

/-- Model of `ShouldUseNowInner` (lines 72 to 95): lazily resolve the
main directory, then run the citation check and the cross-reference
check in order against the retained `_completion_target`. -/
def ShouldUseNowInner (w : World) (st : CompleterState) (filepath : FPath)
    (line : List Char) : CompleterState × Bool :=
  let st1 := if st.mainDirectory.isNone then (ComputeMainDirectory w st filepath).1 else st
  let p1 : String × Bool :=
    if citeMatch line then ("cite", true) else (st1.completionTarget, false)
  let p2 : String × Bool :=
    if refMatch line then (if p1.1 = "cite" then "all" else "label", true) else p1
  ({st1 with completionTarget := p2.1}, p2.2)

/-- Model of `_CacheDataAndSkip` (lines 136 to 147).  `lastModification`
is the current `os.path.getmtime` of the file.  The result is `none`
when the source would raise `KeyError` on `self._cached_data[filename]`
(a hit for a file whose candidates were never stored). -/
def CacheDataAndSkip (st : CompleterState) (filename : FPath) (lastModification : Int) :
    Option (CompleterState × Bool × List Candidate) :=
  match dlookup filename st.files with
  | none =>
    some ({st with files := dinsert filename lastModification st.files}, false, [])
  | some stored =>
    if lastModification ≤ stored then
      match dlookup filename st.cachedData with
      | none => none
      | some cache => some ({st with dCacheHits := st.dCacheHits + 1}, true, cache)
    else
      some ({st with files := dinsert filename lastModification st.files}, false, [])

/-- The per-line bibliography extraction of `_FindBibEntriesRegex`
(lines 160 to 167), regex `@(.*){([^,]*).*`: the match starts at the
first `@` that is followed by an opening brace and runs to the end of
the line; the greedy group 1 extends to the last opening brace, group 2
then takes the longest comma-free run.  `re.sub` keeps the text before
the match and replaces the match by group 2; entries whose group 1 is
`string` are skipped.  Returns the insertion text of the candidate. -/
def bibLineKey (line : List Char) : Option (List Char) :=
  match (List.range line.length).find? (fun i =>
      ((line.drop i).head? == some '@') && (line.drop (i + 1)).contains '\x7b') with
  | none => none
  | some i =>
    let tail := line.drop (i + 1)
    let g1 := upToLast '\x7b' tail
    let g2 := (afterLast '\x7b' tail).takeWhile (fun c => c != ',')
    if g1 = "string".toList then none
    else some (line.take i ++ g2)

/-- The scanning loop of `_FindBibEntriesRegex` over the lines of one
file: each line is right-stripped and contributes at most one
candidate. -/
def scanBibLines (lines : List (List Char)) : List Candidate :=
  lines.filterMap (fun l => (bibLineKey (pyRstrip l)).map BuildCompletionData)

/-- Processing of a single file inside `_FindBibEntriesRegex`
(lines 153 to 170): consult the cache, and on a miss scan the lines and
store the fresh candidate list. -/
def processBibFile (st : CompleterState) (f : FPath) (m : Int)
    (lines : List (List Char)) : Option (CompleterState × List Candidate) :=
  match CacheDataAndSkip st f m with
  | none => none
  | some (st1, true, cache) => some (st1, cache)
  | some (st1, false, _) =>
    let resp := scanBibLines lines
    some ({st1 with cachedData := dinsert f resp st1.cachedData}, resp)

/-- The successive completer states while `_FindBibEntriesRegex`
processes one file: the state on entry, the state right after the
`_CacheDataAndSkip` call (line 154, which already commits the new
modification time), and, on a miss, the state after the candidate list
is stored (line 170, after the whole file has been read). -/
def processBibFileStates (st : CompleterState) (f : FPath) (m : Int)
    (lines : List (List Char)) : List CompleterState :=
  match CacheDataAndSkip st f m with
  | none => [st]
  | some (st1, true, _) => [st, st1]
  | some (st1, false, _) =>
    [st, st1, {st1 with cachedData := dinsert f (scanBibLines lines) st1.cachedData}]

/-- The `for filename in self._Walk(...)` loops of the two indexers:
process each file in turn, extending the returned candidate list. -/
def runFiles (process : CompleterState → FPath → Option (CompleterState × List Candidate)) :
    CompleterState → List FPath → Option (CompleterState × List Candidate)
  | st, [] => some (st, [])
  | st, f :: fs =>
    match process st f with
    | none => none
    | some (st1, resp) =>
      match runFiles process st1 fs with
      | none => none
      | some (st2, rest) => some (st2, resp ++ rest)

/-- Model of `_FindBibEntriesRegex` (lines 149 to 171). -/
def FindBibEntriesRegex (w : World) (st : CompleterState) :
    Option (CompleterState × List Candidate) :=
  match st.mainDirectory with
  | none => none
  | some d => runFiles (fun s f => processBibFile s f (w.mtime f) (w.lines f)) st (Walk w d ".bib")

/-- Model of `_FindBibEntries` (lines 202 to 215) in the fallback
configuration (`nobibparser = true`): the structured strategy of
`_FindBibEntriesParser` requires the external `bibtexparser` package and
is not modeled. -/
def FindBibEntries (w : World) (st : CompleterState) :
    Option (CompleterState × List Candidate) :=
  FindBibEntriesRegex w st

/-- The per-line label extraction of `_FindLabels` (lines 234 to 240),
Python 2 regex `r".*\label{(.*)}.*"` where the escape denotes a literal
letter l: the greedy leading `.*` selects the last occurrence of
`label` followed by an opening brace that still has a closing brace
after it, and the greedy group extends to the last closing brace of the
line.  Returns `(start of group 1, captured identifier)`; the start of
group 1 is the value of `match.start(1)`, and the captured identifier
is what `re.sub` with replacement group 1 leaves of the line (the match
spans the whole line since the pattern begins and ends with `.*`). -/
def labelLineMatch (line : List Char) : Option (Nat × List Char) :=
  match ((List.range line.length).filter (fun p =>
      "label\x7b".toList.isPrefixOf (line.drop p) &&
        (line.drop (p + 6)).contains '\x7d')).getLast? with
  | none => none
  | some p => some (p + 6, upToLast '\x7d' (line.drop (p + 6)))

/-- The matches produced by the label scanning loop, one per matching
line, in file order: `(identifier, 1-based line number, column)`.  The
first argument is the 0-based index of the first line of the list. -/
def lineMatches : Nat → List (List Char) → List (List Char × Nat × Nat)
  | _, [] => []
  | i, l :: ls =>
    match labelLineMatch (pyRstrip l) with
    | some (col, lid) => (lid, i + 1, col) :: lineMatches (i + 1) ls
    | none => lineMatches (i + 1) ls

/-- The scanning loop of `_FindLabels` over the lines of one file
(lines 234 to 240): each matching line assigns
`self._goto_labels[lid] = (filename, i + 1, match.start(1))` and appends
one candidate.  The first argument is the 0-based index of the first
line. -/
def scanLabelLines (f : FPath) : Nat → List (List Char) → GotoLabels →
    GotoLabels × List Candidate
  | _, [], g => (g, [])
  | i, l :: ls, g =>
    match labelLineMatch (pyRstrip l) with
    | none => scanLabelLines f (i + 1) ls g
    | some (col, lid) =>
      let out := scanLabelLines f (i + 1) ls (dinsert lid (f, i + 1, col) g)
      (out.1, BuildCompletionData lid :: out.2)

/-- Processing of a single file inside `_FindLabels` (lines 227 to 243):
consult the cache, and on a miss scan the lines, updating the label
table, and store the fresh candidate list. -/
def processLabelFile (st : CompleterState) (f : FPath) (m : Int)
    (lines : List (List Char)) : Option (CompleterState × List Candidate) :=
  match CacheDataAndSkip st f m with
  | none => none
  | some (st1, true, cache) => some (st1, cache)
  | some (st1, false, _) =>
    let out := scanLabelLines f 0 lines st1.gotoLabels
    some ({st1 with gotoLabels := out.1, cachedData := dinsert f out.2 st1.cachedData}, out.2)

/-- Model of `_FindLabels` (lines 218 to 244). -/
def FindLabels (w : World) (st : CompleterState) :
    Option (CompleterState × List Candidate) :=
  match st.mainDirectory with
  | none => none
  | some d => runFiles (fun s f => processLabelFile s f (w.mtime f) (w.lines f)) st (Walk w d ".tex")

/-- The match attempt of `self._ref_reg` as used by `_GoToDefinition`:
the leftmost position where `ref\x7b` or `pageref\x7b` matches, the
first alternative being tried first at each position.  Returns
`(match.start(), match.end())`. -/
def refMatchLenAt (line : List Char) (i : Nat) : Option Nat :=
  if "ref\x7b".toList.isPrefixOf (line.drop i) then some 4
  else if "pageref\x7b".toList.isPrefixOf (line.drop i) then some 8
  else none

/-- Leftmost match of `ref\{|pageref\{` on the line, as start and end
positions. -/
def refSearch (line : List Char) : Option (Nat × Nat) :=
  match (List.range line.length).find? (fun i => (refMatchLenAt line i).isSome) with
  | none => none
  | some i =>
    match refMatchLenAt line i with
    | some n => some (i, i + n)
    | none => none

/-- Model of the inner `find_end_of_command` of `_GoToDefinition`
(lines 247 to 254): the index of the first closing brace at or after
the match start; the failure value -1 is modeled as `none`. -/
def find_end_of_command (line : List Char) (m : Option (Nat × Nat)) : Option Nat :=
  match m with
  | none => none
  | some (s, _) => (firstIdxOfClose (line.drop s)).map (fun k => s + k)

/-- Model of `_GoToDefinition` (lines 246 to 266).  The identifier is
`line[match.end():end_of_command]`; the `RuntimeError` raised on the two
failure paths, and a failed dictionary lookup, are modeled as `none`. -/
def GoToDefinition (g : GotoLabels) (line : List Char) : Option (FPath × Nat × Nat) :=
  match refSearch line, find_end_of_command line (refSearch line) with
  | some (_, e), some eoc => dlookup ((line.drop e).take (eoc - e)) g
  | _, _ => none

/-- Model of `ComputeCandidatesInner` (lines 288 to 307): lazily resolve
the main directory, then dispatch on the retained completion target;
any unrecognized target (in particular the initial value `none`) leaves
the candidate list empty. -/
def ComputeCandidatesInner (w : World) (st : CompleterState) (filepath : FPath) :
    Option (CompleterState × List Candidate) :=
  let st1 := if st.mainDirectory.isNone then (ComputeMainDirectory w st filepath).1 else st
  if st1.completionTarget = "cite" then FindBibEntries w st1
  else if st1.completionTarget = "label" then FindLabels w st1
  else if st1.completionTarget = "all" then
    match FindLabels w st1 with
    | none => none
    | some (st2, ls) =>
      match FindBibEntries w st2 with
      | none => none
      | some (st3, bs) => some (st3, ls ++ bs)
  else some (st1, [])

theorem dlookup_dinsert_self {K V : Type} [DecidableEq K] (k : K) (v : V) (m : List (K × V)) :
    dlookup k (dinsert k v m) = some v := by
  simp [dlookup, dinsert]

theorem dlookup_dinsert_ne {K V : Type} [DecidableEq K] {k k' : K} (v : V) (m : List (K × V))
    (h : k' ≠ k) : dlookup k (dinsert k' v m) = dlookup k m := by
  simp [dlookup, dinsert, h]

theorem dinsertAll_cons {K V : Type} (p : K × V) (ps m : List (K × V)) :
    dinsertAll (p :: ps) m = dinsertAll ps (dinsert p.1 p.2 m) := rfl

theorem dlookup_dinsertAll {K V : Type} [DecidableEq K] (k : K) (ps m : List (K × V)) :
    dlookup k (dinsertAll ps m) =
      match lastAssoc k ps with
      | some v => some v
      | none => dlookup k m := by
  induction ps generalizing m with
  | nil => rfl
  | cons p ps ih =>
    obtain ⟨k', v⟩ := p
    rw [dinsertAll_cons, ih]
    cases hl : lastAssoc k ps with
    | some r => simp [lastAssoc, hl]
    | none =>
      by_cases hk : k' = k
      · subst hk
        simp [lastAssoc, hl, dlookup_dinsert_self]
      · simp [lastAssoc, hl, hk, dlookup_dinsert_ne _ _ hk]

theorem dinsertAll_length {K V : Type} (ps m : List (K × V)) :
    (dinsertAll ps m).length = ps.length + m.length := by
  induction ps generalizing m with
  | nil => simp [dinsertAll]
  | cons p ps ih =>
    rw [dinsertAll_cons, ih]
    simp [dinsert]
    omega

theorem lastAssoc_map {K V V' : Type} [DecidableEq K] (k : K) (h : V → V') (ps : List (K × V)) :
    lastAssoc k (ps.map (fun t => (t.1, h t.2))) = (lastAssoc k ps).map h := by
  induction ps with
  | nil => rfl
  | cons p ps ih =>
    obtain ⟨k', v⟩ := p
    simp only [List.map_cons, lastAssoc, ih]
    cases hl : lastAssoc k ps with
    | some r => simp
    | none =>
      by_cases hk : k' = k <;> simp [hk]

theorem lastAssoc_mem {K V : Type} [DecidableEq K] {k : K} {v : V} {ps : List (K × V)}
    (h : lastAssoc k ps = some v) : k ∈ ps.map Prod.fst := by
  induction ps with
  | nil => simp [lastAssoc] at h
  | cons p ps ih =>
    obtain ⟨k', v'⟩ := p
    simp only [lastAssoc] at h
    simp only [List.map_cons]
    cases hl : lastAssoc k ps with
    | some r =>
      rw [hl] at h
      simp only [Option.some.injEq] at h
      subst h
      exact List.mem_cons_of_mem _ (ih hl)
    | none =>
      rw [hl] at h
      by_cases hk : k' = k
      · subst hk; exact List.mem_cons_self _ _
      · simp [hk] at h

theorem scanLabelLines_eq (f : FPath) (i : Nat) (ls : List (List Char)) (g : GotoLabels) :
    scanLabelLines f i ls g =
      (dinsertAll ((lineMatches i ls).map (fun t => (t.1, (f, t.2.1, t.2.2)))) g,
       (lineMatches i ls).map (fun t => BuildCompletionData t.1)) := by
  induction ls generalizing i g with
  | nil => rfl
  | cons l ls ih =>
    cases h : labelLineMatch (pyRstrip l) with
    | none => simp [scanLabelLines, lineMatches, h, ih]
    | some pc =>
      obtain ⟨col, lid⟩ := pc
      simp [scanLabelLines, lineMatches, h, ih, dinsertAll_cons, dinsert]

theorem lineMatches_length (i : Nat) (ls : List (List Char)) :
    (lineMatches i ls).length =
      (ls.filter (fun l => (labelLineMatch (pyRstrip l)).isSome)).length := by
  induction ls generalizing i with
  | nil => rfl
  | cons l ls ih =>
    cases h : labelLineMatch (pyRstrip l) with
    | none => simp [lineMatches, h, List.filter, ih]
    | some pc => simp [lineMatches, h, List.filter, ih]

theorem pySplit_ne_nil (l : List Char) : pySplit l ≠ [] := by
  cases l with
  | nil => simp [pySplit]
  | cons c cs =>
    simp only [pySplit]
    by_cases h : c = ' '
    · simp [h]
    · simp only [h, if_false]
      cases hs : pySplit cs <;> simp

theorem pyJoin_cons_cons (w x : List Char) (ws : List (List Char)) :
    pyJoin (w :: x :: ws) = w ++ ' ' :: pyJoin (x :: ws) := rfl

theorem pyJoin_pySplit (l : List Char) : pyJoin (pySplit l) = l := by
  induction l with
  | nil => rfl
  | cons c cs ih =>
    by_cases h : c = ' '
    · subst h
      cases hs : pySplit cs with
      | nil => exact absurd hs (pySplit_ne_nil cs)
      | cons w ws =>
        rw [hs] at ih
        simp [pySplit, hs, pyJoin_cons_cons, ih]
    · simp only [pySplit, if_neg h]
      cases hs : pySplit cs with
      | nil => exact absurd hs (pySplit_ne_nil cs)
      | cons w ws =>
        rw [hs] at ih
        cases ws with
        | nil => simpa [pyJoin] using congrArg (c :: ·) ih
        | cons x ws' =>
          rw [pyJoin_cons_cons] at ih
          rw [pyJoin_cons_cons]
          simp only [List.cons_append]
          rw [ih]

theorem pyJoin_append_singleton (qs : List (List Char)) (p : List Char) (h : qs ≠ []) :
    pyJoin (qs ++ [p]) = pyJoin qs ++ ' ' :: p := by
  induction qs with
  | nil => exact absurd rfl h
  | cons w qs ih =>
    cases qs with
    | nil => rfl
    | cons x qs' =>
      have ih' := ih (by simp)
      rw [show (w :: x :: qs') ++ [p] = w :: ((x :: qs') ++ [p]) from rfl]
      rw [show pyJoin (w :: ((x :: qs') ++ [p])) = w ++ ' ' :: pyJoin ((x :: qs') ++ [p])
        from rfl]
      rw [ih', pyJoin_cons_cons]
      simp

theorem firstIdxOfClose_eq_none {l : List Char} :
    firstIdxOfClose l = none ↔ '\x7d' ∉ l := by
  induction l with
  | nil => simp [firstIdxOfClose]
  | cons c cs ih =>
    by_cases h : c = '\x7d'
    · subst h; simp [firstIdxOfClose]
    · simp only [firstIdxOfClose, if_neg h, Option.map_eq_none', ih, List.mem_cons]
      constructor
      · intro hn hor
        rcases hor with hor | hor
        · exact h hor.symm
        · exact hn hor
      · intro hn hm
        exact hn (Or.inr hm)

theorem firstIdxOfClose_append_of_not_mem {xs : List Char} (ys : List Char)
    (h : '\x7d' ∉ xs) :
    firstIdxOfClose (xs ++ ys) = (firstIdxOfClose ys).map (fun k => xs.length + k) := by
  induction xs with
  | nil =>
    simp only [List.nil_append, List.length_nil, Nat.zero_add]
    cases firstIdxOfClose ys <;> rfl
  | cons c cs ih =>
    have hc : ¬(c = '\x7d') := by
      intro hh; exact h (hh ▸ List.mem_cons_self c cs)
    have hcs : '\x7d' ∉ cs := fun hm => h (List.mem_cons_of_mem _ hm)
    cases hk : firstIdxOfClose ys with
    | none => simp [firstIdxOfClose, hc, ih hcs, hk]
    | some k =>
      simp [firstIdxOfClose, hc, ih hcs, hk]
      omega

theorem firstIdxOfClose_take {l : List Char} {k : Nat} (h : firstIdxOfClose l = some k) :
    l.take k = l.takeWhile (fun c => c != '\x7d') := by
  induction l generalizing k with
  | nil => simp [firstIdxOfClose] at h
  | cons c cs ih =>
    by_cases hc : c = '\x7d'
    · subst hc
      simp [firstIdxOfClose] at h
      obtain rfl : k = 0 := by omega
      simp [List.takeWhile]
    · simp only [firstIdxOfClose, if_neg hc, Option.map_eq_some'] at h
      obtain ⟨k', hk', rfl⟩ := h
      simp only [List.take_succ_cons, List.takeWhile]
      have hb : (c != '\x7d') = true := by
        simp [bne_iff_ne, hc]
      rw [hb]
      simp [ih hk']

theorem refSearch_some {line : List Char} {s e : Nat} (h : refSearch line = some (s, e)) :
    ∃ pat : List Char,
      (pat = "ref\x7b".toList ∨ pat = "pageref\x7b".toList) ∧
      line.drop s = pat ++ line.drop e ∧ e = s + pat.length := by
  unfold refSearch at h
  cases hf : (List.range line.length).find? (fun i => (refMatchLenAt line i).isSome) with
  | none => rw [hf] at h; simp at h
  | some i =>
    rw [hf] at h
    dsimp only at h
    cases hm : refMatchLenAt line i with
    | none => rw [hm] at h; simp at h
    | some n =>
      rw [hm] at h
      dsimp only at h
      simp only [Option.some.injEq, Prod.mk.injEq] at h
      obtain ⟨rfl, rfl⟩ := h
      unfold refMatchLenAt at hm
      by_cases h4 : "ref\x7b".toList.isPrefixOf (line.drop i)
      · rw [if_pos h4] at hm
        simp only [Option.some.injEq] at hm
        subst hm
        obtain ⟨t, ht⟩ := List.isPrefixOf_iff_prefix.mp h4
        refine ⟨"ref\x7b".toList, Or.inl rfl, ?_, rfl⟩
        have hd : line.drop (i + "ref\x7b".toList.length) = t := by
          rw [← List.drop_drop, ← ht, List.drop_left]
        rw [show i + 4 = i + "ref\x7b".toList.length from rfl, hd]
        exact ht.symm
      · rw [if_neg h4] at hm
        by_cases h8 : "pageref\x7b".toList.isPrefixOf (line.drop i)
        · rw [if_pos h8] at hm
          simp only [Option.some.injEq] at hm
          subst hm
          obtain ⟨t, ht⟩ := List.isPrefixOf_iff_prefix.mp h8
          refine ⟨"pageref\x7b".toList, Or.inr rfl, ?_, rfl⟩
          have hd : line.drop (i + "pageref\x7b".toList.length) = t := by
            rw [← List.drop_drop, ← ht, List.drop_left]
          rw [show i + 8 = i + "pageref\x7b".toList.length from rfl, hd]
          exact ht.symm
        · rw [if_neg h8] at hm
          exact absurd hm (by simp)

theorem GoToDefinition_eq_match (g : GotoLabels) {line : List Char} {s e : Nat}
    (h : refSearch line = some (s, e)) :
    GoToDefinition g line =
      match firstIdxOfClose (line.drop s) with
      | none => none
      | some k => dlookup ((line.drop e).take (s + k - e)) g := by
  unfold GoToDefinition find_end_of_command
  rw [h]
  dsimp only
  cases hk : firstIdxOfClose (line.drop s) with
  | none => rfl
  | some k => rfl

theorem FindMainRev_eq_none (w : World) (r : List String)
    (h : ∀ t : List String, t <:+ r →
      ∀ e ∈ listdir w t.reverse, strEndsWith e ".bib" = false) :
    FindMainRev w ".bib" r = none := by
  induction r with
  | nil =>
    have hno : (listdir w (([] : List String).reverse)).any
        (fun file => strEndsWith file ".bib") = false := by
      rw [List.any_eq_false]
      intro e he
      simp [h [] List.nil_suffix e he]
    simp only [List.reverse_nil] at hno
    simp [FindMainRev, hno]
  | cons c rest ih =>
    have hno : (listdir w ((c :: rest).reverse)).any
        (fun file => strEndsWith file ".bib") = false := by
      rw [List.any_eq_false]
      intro e he
      simp [h (c :: rest) (List.suffix_refl _) e he]
    simp only [FindMainRev, hno, Bool.false_eq_true, if_false]
    exact ih (fun t ht e he => h t (ht.trans (List.suffix_cons c rest)) e he)

theorem FindMain_eq_none (w : World) (p : FPath)
    (h : ∀ q : FPath, q <+: p → ∀ e ∈ listdir w q, strEndsWith e ".bib" = false) :
    FindMain w ".bib" p = none := by
  unfold FindMain
  apply FindMainRev_eq_none
  intro t ht e he
  have hq : t.reverse <+: p := by
    rw [← List.reverse_reverse p]
    exact List.reverse_prefix.mpr ht
  exact h t.reverse hq e he

theorem Walk_eq_nil_of_leaf (w : World) (top : FPath)
    (h : ∀ f ∈ w.allFiles, top.isPrefixOf f = true → f = top) (what : String) :
    Walk w top what = [] := by
  unfold Walk
  rw [List.filter_eq_nil_iff]
  intro f hf hb
  rw [Bool.and_eq_true, Bool.and_eq_true] at hb
  obtain ⟨⟨h1, h2⟩, _⟩ := hb
  have heq : f = top := h f hf h1
  rw [Bool.not_eq_true', beq_eq_false_iff_ne] at h2
  exact h2 heq

/-- Counterexample to C1: with retained context Cite from an earlier call, a
line on which only the cross-reference pattern matches (the citation pattern
does not) is classified All (Both), not Label. -/
theorem c1_counterexample :
    citeMatch ("\\pageref\x7bsec:x\x7d".toList) = false
    ∧ refMatch ("\\pageref\x7bsec:x\x7d".toList) = true
    ∧ (ShouldUseNowInner ⟨[], fun _ => 0, fun _ => []⟩
        { completionTarget := "cite"
          mainDirectory := some []
          files := []
          cachedData := []
          dCacheHits := 0
          gotoLabels := [] }
        ["doc.tex"] ("\\pageref\x7bsec:x\x7d".toList)).1.completionTarget = "all"
    ∧ ("all" : String) ≠ "label" :=
  ⟨by decide, by decide, by decide, by decide⟩

/-- C1 (amended): when the cross-reference pattern matches a line and the
citation pattern does not, the classifier sets the context to Label unless
the previously retained context was Cite, in which case it sets Both (All);
the activation flag is true either way.  Both therefore also arises from a
ref-only line when the retained context is Cite, not only when one line
satisfies both patterns. -/
theorem c1_ref_only_classification (w : World) (st : CompleterState) (filepath : FPath)
    (line : List Char) (href : refMatch line = true) (hcite : citeMatch line = false) :
    (ShouldUseNowInner w st filepath line).1.completionTarget =
      (if st.completionTarget = "cite" then "all" else "label")
    ∧ (ShouldUseNowInner w st filepath line).2 = true := by
  have hct : (if st.mainDirectory.isNone then (ComputeMainDirectory w st filepath).1
      else st).completionTarget = st.completionTarget := by
    unfold ComputeMainDirectory
    cases st.mainDirectory with
    | none =>
      cases FindMain w ".bib" filepath.dropLast <;> rfl
    | some d => rfl
  unfold ShouldUseNowInner
  simp only [hcite, href, Bool.false_eq_true, if_false, if_true, hct]
  simp

/-- Witness for C1 (amended): a ref-only line from the idle context is
classified Label with activation. -/
theorem c1_ref_only_classification_witness :
    (ShouldUseNowInner ⟨[], fun _ => 0, fun _ => []⟩
        { completionTarget := "none"
          mainDirectory := some []
          files := []
          cachedData := []
          dCacheHits := 0
          gotoLabels := [] }
        ["doc.tex"] ("\\ref\x7bfig\x7d".toList)).1.completionTarget = "label" := by
  have h := c1_ref_only_classification ⟨[], fun _ => 0, fun _ => []⟩
      { completionTarget := "none"
        mainDirectory := some []
        files := []
        cachedData := []
        dCacheHits := 0
        gotoLabels := [] } ["doc.tex"] ("\\ref\x7bfig\x7d".toList)
      (by decide) (by decide)
  rw [h.1]
  decide

/-- C2: first observation of a path records the modification time and reports
a miss with an empty result; a later call with an equal-or-older time is a hit
returning the stored candidates with the hit counter incremented by exactly
one; a later call with a strictly newer time re-records the time and reports
a miss with an empty result. -/
theorem c2_cache_check (st : CompleterState) (f : FPath) (m stored : Int)
    (d : List Candidate) :
    (dlookup f st.files = none →
      CacheDataAndSkip st f m =
        some ({st with files := dinsert f m st.files}, false, []))
    ∧ (dlookup f st.files = some stored → m ≤ stored →
        dlookup f st.cachedData = some d →
      CacheDataAndSkip st f m =
        some ({st with dCacheHits := st.dCacheHits + 1}, true, d))
    ∧ (dlookup f st.files = some stored → stored < m →
      CacheDataAndSkip st f m =
        some ({st with files := dinsert f m st.files}, false, [])) := by
  refine ⟨?_, ?_, ?_⟩
  · intro h
    unfold CacheDataAndSkip
    rw [h]
  · intro h1 h2 h3
    unfold CacheDataAndSkip
    rw [h1]
    dsimp only
    rw [if_pos h2, h3]
  · intro h1 h2
    unfold CacheDataAndSkip
    rw [h1]
    dsimp only
    rw [if_neg (not_le.mpr h2)]

/-- Witness for C2: the three cache behaviors at concrete states. -/
theorem c2_cache_check_witness :
    (CacheDataAndSkip initialState ["p", "r.bib"] 5 =
      some ({initialState with files := dinsert ["p", "r.bib"] 5 initialState.files},
        false, []))
    ∧ (CacheDataAndSkip
        { completionTarget := "none"
          mainDirectory := none
          files := [(["p", "r.bib"], 5)]
          cachedData := [(["p", "r.bib"], [⟨"k".toList⟩])]
          dCacheHits := 0
          gotoLabels := [] } ["p", "r.bib"] 5 =
      some ({ completionTarget := "none"
              mainDirectory := none
              files := [(["p", "r.bib"], 5)]
              cachedData := [(["p", "r.bib"], [⟨"k".toList⟩])]
              dCacheHits := 1
              gotoLabels := [] }, true, [⟨"k".toList⟩]))
    ∧ (CacheDataAndSkip
        { completionTarget := "none"
          mainDirectory := none
          files := [(["p", "r.bib"], 5)]
          cachedData := [(["p", "r.bib"], [⟨"k".toList⟩])]
          dCacheHits := 0
          gotoLabels := [] } ["p", "r.bib"] 7 =
      some ({ completionTarget := "none"
              mainDirectory := none
              files := dinsert ["p", "r.bib"] 7 [(["p", "r.bib"], 5)]
              cachedData := [(["p", "r.bib"], [⟨"k".toList⟩])]
              dCacheHits := 0
              gotoLabels := [] }, false, [])) := by
  refine ⟨(c2_cache_check initialState ["p", "r.bib"] 5 0 []).1 (by decide),
    (c2_cache_check _ ["p", "r.bib"] 5 5 [⟨"k".toList⟩]).2.1 (by decide) (by decide) (by decide),
    (c2_cache_check _ ["p", "r.bib"] 7 5 []).2.2 (by decide) (by decide)⟩

theorem dlookup_dinsertAll_isSome {K V : Type} [DecidableEq K] (k : K)
    (ps m : List (K × V)) {v : V} (h : dlookup k m = some v) :
    ∃ v', dlookup k (dinsertAll ps m) = some v' := by
  rw [dlookup_dinsertAll]
  cases hl : lastAssoc k ps with
  | some r => exact ⟨r, rfl⟩
  | none => exact ⟨v, h⟩

/-- Counterexample to C3: while a file with a strictly newer modification
time is being reprocessed, there is an intermediate state (right after the
cache check, before the scan results are stored) in which the recorded time
is already the new one while the cached candidate list still holds the
previous scan, so FileRecord and CacheEntry are not replaced together. -/
theorem c3_counterexample :
    processBibFileStates
        { completionTarget := "cite"
          mainDirectory := some ["p"]
          files := [(["p", "r.bib"], 1)]
          cachedData := [(["p", "r.bib"], [⟨"old".toList⟩])]
          dCacheHits := 0
          gotoLabels := [] }
        ["p", "r.bib"] 2 ["@article\x7bnew,".toList] =
      [{ completionTarget := "cite"
         mainDirectory := some ["p"]
         files := [(["p", "r.bib"], 1)]
         cachedData := [(["p", "r.bib"], [⟨"old".toList⟩])]
         dCacheHits := 0
         gotoLabels := [] },
       { completionTarget := "cite"
         mainDirectory := some ["p"]
         files := [(["p", "r.bib"], 2), (["p", "r.bib"], 1)]
         cachedData := [(["p", "r.bib"], [⟨"old".toList⟩])]
         dCacheHits := 0
         gotoLabels := [] },
       { completionTarget := "cite"
         mainDirectory := some ["p"]
         files := [(["p", "r.bib"], 2), (["p", "r.bib"], 1)]
         cachedData := [(["p", "r.bib"], [⟨"new".toList⟩]), (["p", "r.bib"], [⟨"old".toList⟩])]
         dCacheHits := 0
         gotoLabels := [] }]
    ∧ dlookup ["p", "r.bib"]
        ([(["p", "r.bib"], 2), (["p", "r.bib"], (1 : Int))]) = some 2
    ∧ dlookup ["p", "r.bib"]
        ([(["p", "r.bib"], [⟨"old".toList⟩])] : List (FPath × List Candidate)) =
        some [⟨"old".toList⟩]
    ∧ ([⟨"old".toList⟩] : List Candidate) ≠ scanBibLines ["@article\x7bnew,".toList] := by
  decide

/-- C3 (amended): on a rescan forced by a strictly newer modification time
the commit is two-phase, not atomic: the recorded time is committed by the
cache check before the file is read, the cached candidate list is replaced
only after the scan; the intermediate state carries the new time with the
old list, and once the per-file processing completes both are updated. -/
theorem c3_two_phase_commit (st : CompleterState) (f : FPath) (m stored : Int)
    (lines : List (List Char))
    (hrec : dlookup f st.files = some stored) (hnew : stored < m) :
    processBibFileStates st f m lines =
      [st,
       {st with files := dinsert f m st.files},
       {st with
          files := dinsert f m st.files
          cachedData := dinsert f (scanBibLines lines) st.cachedData}]
    ∧ dlookup f ({st with files := dinsert f m st.files}).files = some m
    ∧ ({st with files := dinsert f m st.files}).cachedData = st.cachedData
    ∧ dlookup f ({st with
          files := dinsert f m st.files
          cachedData := dinsert f (scanBibLines lines) st.cachedData}).cachedData =
        some (scanBibLines lines) := by
  refine ⟨?_, ?_, rfl, ?_⟩
  · unfold processBibFileStates CacheDataAndSkip
    rw [hrec]
    dsimp only
    rw [if_neg (not_le.mpr hnew)]
  · exact dlookup_dinsert_self f m st.files
  · exact dlookup_dinsert_self f (scanBibLines lines) st.cachedData

/-- Witness for C3 (amended): the two-phase state sequence at a concrete
rescan. -/
theorem c3_two_phase_commit_witness :
    processBibFileStates
        { completionTarget := "cite"
          mainDirectory := some ["p"]
          files := [(["p", "b.bib"], 3)]
          cachedData := [(["p", "b.bib"], [⟨"old".toList⟩])]
          dCacheHits := 0
          gotoLabels := [] }
        ["p", "b.bib"] 4 ["@misc\x7bnew,".toList] =
      [{ completionTarget := "cite"
         mainDirectory := some ["p"]
         files := [(["p", "b.bib"], 3)]
         cachedData := [(["p", "b.bib"], [⟨"old".toList⟩])]
         dCacheHits := 0
         gotoLabels := [] },
       { completionTarget := "cite"
         mainDirectory := some ["p"]
         files := dinsert ["p", "b.bib"] 4 [(["p", "b.bib"], 3)]
         cachedData := [(["p", "b.bib"], [⟨"old".toList⟩])]
         dCacheHits := 0
         gotoLabels := [] },
       { completionTarget := "cite"
         mainDirectory := some ["p"]
         files := dinsert ["p", "b.bib"] 4 [(["p", "b.bib"], 3)]
         cachedData := dinsert ["p", "b.bib"] (scanBibLines ["@misc\x7bnew,".toList])
           [(["p", "b.bib"], [⟨"old".toList⟩])]
         dCacheHits := 0
         gotoLabels := [] }] :=
  (c3_two_phase_commit _ ["p", "b.bib"] 4 3 ["@misc\x7bnew,".toList]
    (by decide) (by decide)).1

/-- Counterexample to C4: a rescan of a file whose label definition was
removed still leaves the old LabelIndex entry attributed to that file, even
though the current content produces no matches. -/
theorem c4_counterexample :
    processLabelFile
        { completionTarget := "label"
          mainDirectory := some ["p"]
          files := [(["p", "d.tex"], 1)]
          cachedData := [(["p", "d.tex"], [⟨"a".toList⟩])]
          dCacheHits := 0
          gotoLabels := [("a".toList, (["p", "d.tex"], 1, 7))] }
        ["p", "d.tex"] 2 ["no labels any more".toList] =
      some ({ completionTarget := "label"
              mainDirectory := some ["p"]
              files := dinsert ["p", "d.tex"] 2 [(["p", "d.tex"], 1)]
              cachedData := dinsert ["p", "d.tex"] [] [(["p", "d.tex"], [⟨"a".toList⟩])]
              dCacheHits := 0
              gotoLabels := [("a".toList, (["p", "d.tex"], 1, 7))] }, [])
    ∧ dlookup "a".toList
        ([("a".toList, (["p", "d.tex"], 1, 7))] : GotoLabels) =
        some (["p", "d.tex"], 1, 7)
    ∧ lineMatches 0 ["no labels any more".toList] = [] := by
  decide

/-- C4 (amended): a successful rescan replaces the cached candidate list of
the file wholesale with candidates derived from the current content, but
LabelIndex is only written per matched identifier: entries from earlier scans
are never removed, only overwritten when the same identifier matches again,
so an identifier whose label definition was removed from the file remains in
LabelIndex attributed to it. -/
theorem c4_rescan_label_index (st : CompleterState) (f : FPath) (m stored : Int)
    (lines : List (List Char))
    (hrec : dlookup f st.files = some stored) (hnew : stored < m) :
    processLabelFile st f m lines =
      some ({st with
          files := dinsert f m st.files
          gotoLabels := dinsertAll
            ((lineMatches 0 lines).map (fun t => (t.1, (f, t.2.1, t.2.2)))) st.gotoLabels
          cachedData := dinsert f
            ((lineMatches 0 lines).map (fun t => BuildCompletionData t.1)) st.cachedData},
        (lineMatches 0 lines).map (fun t => BuildCompletionData t.1))
    ∧ dlookup f (dinsert f ((lineMatches 0 lines).map (fun t => BuildCompletionData t.1))
        st.cachedData) =
        some ((lineMatches 0 lines).map (fun t => BuildCompletionData t.1))
    ∧ (∀ k v, dlookup k st.gotoLabels = some v →
        ∃ v', dlookup k (dinsertAll
          ((lineMatches 0 lines).map (fun t => (t.1, (f, t.2.1, t.2.2)))) st.gotoLabels) =
          some v') := by
  refine ⟨?_, dlookup_dinsert_self f _ st.cachedData, fun k v hv =>
    dlookup_dinsertAll_isSome k _ st.gotoLabels hv⟩
  unfold processLabelFile CacheDataAndSkip
  rw [hrec]
  dsimp only
  rw [if_neg (not_le.mpr hnew)]
  dsimp only
  rw [scanLabelLines_eq]

/-- Witness for C4 (amended): a concrete rescan of a file whose old label
was removed and a new one added commits the fresh candidate list. -/
theorem c4_rescan_label_index_witness :
    processLabelFile
        { completionTarget := "label"
          mainDirectory := some ["p"]
          files := [(["p", "d.tex"], 1)]
          cachedData := [(["p", "d.tex"], [⟨"a".toList⟩])]
          dCacheHits := 0
          gotoLabels := [("a".toList, (["p", "d.tex"], 1, 7))] }
        ["p", "d.tex"] 2 ["\\label\x7bb\x7d".toList] =
      some ({ completionTarget := "label"
              mainDirectory := some ["p"]
              files := dinsert ["p", "d.tex"] 2 [(["p", "d.tex"], 1)]
              cachedData := dinsert ["p", "d.tex"]
                ((lineMatches 0 ["\\label\x7bb\x7d".toList]).map
                  (fun t => BuildCompletionData t.1))
                [(["p", "d.tex"], [⟨"a".toList⟩])]
              dCacheHits := 0
              gotoLabels := dinsertAll
                ((lineMatches 0 ["\\label\x7bb\x7d".toList]).map
                  (fun t => (t.1, (["p", "d.tex"], t.2.1, t.2.2))))
                [("a".toList, (["p", "d.tex"], 1, 7))] },
        (lineMatches 0 ["\\label\x7bb\x7d".toList]).map
          (fun t => BuildCompletionData t.1)) :=
  (c4_rescan_label_index _ ["p", "d.tex"] 2 1 ["\\label\x7bb\x7d".toList]
    (by decide) (by decide)).1

/-- C7: for every matched label definition, the indexer records under the
captured identifier the triple of source file, 1-based line number and
0-based column of the start of the identifier, overwriting any prior entry
for that identifier (whatever file it came from), and emits one candidate
keyed by the identifier.  The recorded triple is the one of the last match
of that identifier in the file. -/
theorem c7_label_record (g : GotoLabels) (f : FPath) (lines : List (List Char))
    (lid : List Char) (n c : Nat)
    (hlast : lastAssoc lid (lineMatches 0 lines) = some (n, c)) :
    dlookup lid (scanLabelLines f 0 lines g).1 = some (f, n, c)
    ∧ BuildCompletionData lid ∈ (scanLabelLines f 0 lines g).2 := by
  rw [scanLabelLines_eq]
  constructor
  · dsimp only
    rw [dlookup_dinsertAll]
    have hfun : (fun t : List Char × Nat × Nat => (t.1, (f, t.2.1, t.2.2)))
        = (fun t : List Char × Nat × Nat => (t.1, (fun v : Nat × Nat => (f, v.1, v.2)) t.2)) :=
      rfl
    rw [hfun, lastAssoc_map lid (fun v : Nat × Nat => (f, v.1, v.2)) (lineMatches 0 lines),
      hlast]
    rfl
  · dsimp only
    have hk := lastAssoc_mem hlast
    obtain ⟨t, ht, hteq⟩ := List.mem_map.mp hk
    exact List.mem_map.mpr ⟨t, ht, by rw [hteq]⟩

/-- Witness for C7: scanning file B, which defines the identifier already
indexed from file A, leaves the index pointing at the location in B, and a
candidate for the identifier is emitted. -/
theorem c7_label_record_witness :
    dlookup "fig1".toList
      (scanLabelLines ["B.tex"] 0 ["\\label\x7bfig1\x7d".toList]
        [("fig1".toList, (["A.tex"], 3, 7))]).1 = some (["B.tex"], 1, 7)
    ∧ BuildCompletionData "fig1".toList ∈
      (scanLabelLines ["B.tex"] 0 ["\\label\x7bfig1\x7d".toList]
        [("fig1".toList, (["A.tex"], 3, 7))]).2 :=
  c7_label_record [("fig1".toList, (["A.tex"], 3, 7))] ["B.tex"]
    ["\\label\x7bfig1\x7d".toList] "fig1".toList 1 7 (by decide)

/-- C10: the label scan produces at most one candidate and one table
assignment per line: the candidate list has exactly one element per matching
line, the association list grows by exactly one cell per matching line, and
a concrete line holding two label commands yields exactly one entry and one
candidate (for the last command of the line). -/
theorem c10_one_label_per_line (f : FPath) (i : Nat) (lines : List (List Char))
    (g : GotoLabels) :
    (scanLabelLines f i lines g).2.length =
      (lines.filter (fun l => (labelLineMatch (pyRstrip l)).isSome)).length
    ∧ (scanLabelLines f i lines g).1.length =
      (lines.filter (fun l => (labelLineMatch (pyRstrip l)).isSome)).length + g.length
    ∧ scanLabelLines ["d.tex"] 0 ["\\label\x7ba\x7d \\label\x7bb\x7d".toList] [] =
      ([("b".toList, (["d.tex"], 1, 17))], [BuildCompletionData "b".toList]) := by
  refine ⟨?_, ?_, by decide⟩
  · rw [scanLabelLines_eq]
    dsimp only
    rw [List.length_map, lineMatches_length]
  · rw [scanLabelLines_eq]
    dsimp only
    rw [dinsertAll_length, List.length_map, lineMatches_length]

/-- Counterexample to C5: with no bibliography marker on the ancestor chain,
resolution does fall back to the document path and reports the diagnostic,
but the subsequent walk, rooted at the file path itself, finds no files at
all, not even the sibling document colocated with the open document. -/
theorem c5_counterexample :
    ComputeMainDirectory
        ⟨[["a", "b", "doc.tex"], ["a", "b", "other.tex"]], fun _ => 0, fun _ => []⟩
        initialState ["a", "b", "doc.tex"] =
      ({initialState with mainDirectory := some ["a", "b", "doc.tex"]}, false)
    ∧ (["a", "b", "other.tex"] : FPath) ∈
        ([["a", "b", "doc.tex"], ["a", "b", "other.tex"]] : List FPath)
    ∧ (["a", "b", "other.tex"] : FPath).dropLast = (["a", "b", "doc.tex"] : FPath).dropLast
    ∧ Walk ⟨[["a", "b", "doc.tex"], ["a", "b", "other.tex"]], fun _ => 0, fun _ => []⟩
        ["a", "b", "doc.tex"] ".tex" = []
    ∧ Walk ⟨[["a", "b", "doc.tex"], ["a", "b", "other.tex"]], fun _ => 0, fun _ => []⟩
        ["a", "b", "doc.tex"] ".bib" = [] := by
  decide

/-- C5 (amended): when no directory on the ancestor chain of the document
holds an entry ending with the bibliography marker suffix, root resolution
terminates without raising, sets the root to the document path itself, and
reports the non-fatal root-not-found diagnostic (the false flag); indexing
still proceeds, but because the fallback root is the file itself (no file
lies strictly below it) the recursive walks yield no files at all, so not
even files colocated with the open document are found. -/
theorem c5_root_fallback (w : World) (st : CompleterState) (filepath : FPath)
    (hnb : ∀ q : FPath, q <+: filepath.dropLast →
      ∀ e ∈ listdir w q, strEndsWith e ".bib" = false)
    (hleaf : ∀ f ∈ w.allFiles, filepath.isPrefixOf f = true → f = filepath) :
    ComputeMainDirectory w st filepath = ({st with mainDirectory := some filepath}, false)
    ∧ Walk w filepath ".tex" = [] ∧ Walk w filepath ".bib" = [] := by
  refine ⟨?_, Walk_eq_nil_of_leaf w filepath hleaf ".tex",
    Walk_eq_nil_of_leaf w filepath hleaf ".bib"⟩
  unfold ComputeMainDirectory
  rw [FindMain_eq_none w filepath.dropLast hnb]

/-- Witness for C5 (amended): a one-directory tree with no bibliography
file. -/
theorem c5_root_fallback_witness :
    ComputeMainDirectory ⟨[["a", "doc.tex"]], fun _ => 0, fun _ => []⟩
        initialState ["a", "doc.tex"] =
      ({initialState with mainDirectory := some ["a", "doc.tex"]}, false)
    ∧ Walk ⟨[["a", "doc.tex"]], fun _ => 0, fun _ => []⟩ ["a", "doc.tex"] ".tex" = []
    ∧ Walk ⟨[["a", "doc.tex"]], fun _ => 0, fun _ => []⟩ ["a", "doc.tex"] ".bib" = [] := by
  have hnb : ∀ q : FPath, q <+: (["a", "doc.tex"] : FPath).dropLast →
      ∀ e ∈ listdir ⟨[["a", "doc.tex"]], fun _ => 0, fun _ => []⟩ q,
        strEndsWith e ".bib" = false := by
    intro q hq e he
    obtain ⟨t, ht⟩ := hq
    cases q with
    | nil =>
      have hl : listdir ⟨[["a", "doc.tex"]], fun _ => 0, fun _ => []⟩ [] = ["a"] := by
        decide
      rw [hl] at he
      rw [List.mem_singleton] at he
      subst he
      decide
    | cons hd tl =>
      have h1 : hd = "a" ∧ tl ++ t = [] := by
        have := ht
        simp only [List.cons_append] at this
        exact ⟨(List.cons.injEq _ _ _ _).mp this |>.1,
          (List.cons.injEq _ _ _ _).mp this |>.2⟩
      obtain ⟨rfl, h2⟩ := h1
      obtain ⟨rfl, -⟩ := List.append_eq_nil.mp h2
      have hl : listdir ⟨[["a", "doc.tex"]], fun _ => 0, fun _ => []⟩ ["a"] =
          ["doc.tex"] := by decide
      rw [hl] at he
      rw [List.mem_singleton] at he
      subst he
      decide
  exact c5_root_fallback ⟨[["a", "doc.tex"]], fun _ => 0, fun _ => []⟩
    initialState ["a", "doc.tex"] hnb (by decide)

/-- C6: navigation resolution fails (modeled as none, for the raised
not-available error) exactly when the cross-reference pattern is absent from
the line, or no closing brace follows the match on the line, or the isolated
identifier (the text from the match end up to the next closing brace) is
absent from the label index; otherwise it returns the file, line and column
triple exactly as stored in the label index for that identifier. -/
theorem c6_goto_characterization (g : GotoLabels) (line : List Char) :
    (GoToDefinition g line = none ↔
        refSearch line = none
      ∨ (∃ s e, refSearch line = some (s, e) ∧ '\x7d' ∉ line.drop e)
      ∨ (∃ s e, refSearch line = some (s, e) ∧ '\x7d' ∈ line.drop e ∧
          dlookup ((line.drop e).takeWhile (fun c => c != '\x7d')) g = none))
    ∧ (∀ t, GoToDefinition g line = some t →
        ∃ s e, refSearch line = some (s, e) ∧
          dlookup ((line.drop e).takeWhile (fun c => c != '\x7d')) g = some t) := by
  cases hr : refSearch line with
  | none =>
    have hg : GoToDefinition g line = none := by
      unfold GoToDefinition
      rw [hr]
    refine ⟨⟨fun _ => Or.inl rfl, fun _ => hg⟩, ?_⟩
    intro t ht
    rw [hg] at ht
    exact absurd ht (by simp)
  | some se =>
    obtain ⟨s, e⟩ := se
    obtain ⟨pat, hpat, hsplit, hlen⟩ := refSearch_some hr
    have hpatno : '\x7d' ∉ pat := by
      rcases hpat with rfl | rfl <;> decide
    rw [GoToDefinition_eq_match g hr]
    cases hfc : firstIdxOfClose (line.drop e) with
    | none =>
      have hnot : '\x7d' ∉ line.drop e := firstIdxOfClose_eq_none.mp hfc
      have hfs : firstIdxOfClose (line.drop s) = none := by
        rw [hsplit, firstIdxOfClose_append_of_not_mem _ hpatno, hfc]
        rfl
      rw [hfs]
      refine ⟨⟨fun _ => Or.inr (Or.inl ⟨s, e, rfl, hnot⟩), fun _ => rfl⟩, ?_⟩
      intro t ht
      exact absurd ht (by simp)
    | some k =>
      have hin : '\x7d' ∈ line.drop e := by
        by_contra hno
        rw [firstIdxOfClose_eq_none.mpr hno] at hfc
        exact absurd hfc (by simp)
      have hfs : firstIdxOfClose (line.drop s) = some (pat.length + k) := by
        rw [hsplit, firstIdxOfClose_append_of_not_mem _ hpatno, hfc]
        rfl
      rw [hfs]
      dsimp only
      have harith : s + (pat.length + k) - e = k := by omega
      rw [harith, firstIdxOfClose_take hfc]
      constructor
      · constructor
        · intro hnone
          exact Or.inr (Or.inr ⟨s, e, rfl, hin, hnone⟩)
        · intro hd
          rcases hd with hd | hd | hd
          · exact absurd hd (by simp)
          · obtain ⟨s', e', hse', hno⟩ := hd
            simp only [Option.some.injEq, Prod.mk.injEq] at hse'
            obtain ⟨rfl, rfl⟩ := hse'
            exact absurd hin hno
          · obtain ⟨s', e', hse', -, hnone⟩ := hd
            simp only [Option.some.injEq, Prod.mk.injEq] at hse'
            obtain ⟨rfl, rfl⟩ := hse'
            exact hnone
      · intro t ht
        exact ⟨s, e, rfl, ht⟩

/-- Witness for C6: a line whose isolated identifier is not indexed fails
with the not-available error. -/
theorem c6_goto_characterization_witness :
    GoToDefinition [("fig1".toList, (["x.tex"], 7, 4))]
        ("See ref\x7bunknown\x7d end".toList) = none :=
  (c6_goto_characterization [("fig1".toList, (["x.tex"], 7, 4))]
      ("See ref\x7bunknown\x7d end".toList)).1.mpr
    (Or.inr (Or.inr ⟨4, 8, by decide, by decide, by decide⟩))

/-- C8: the display-detail truncation returns a string of length at most 30
unchanged; otherwise it returns a string that ends with the three-dot
ellipsis, whose total length never exceeds 30, and whose part before the
ellipsis is cut at a word boundary: it is either empty or a prefix of the
content followed immediately by a space (never the middle of a
space-separated word). -/
theorem c8_smart_truncate (content : List Char) :
    (content.length ≤ 30 → smart_truncate content 30 "...".toList = content)
    ∧ (30 < content.length →
        (smart_truncate content 30 "...".toList).length ≤ 30
        ∧ ∃ R, smart_truncate content 30 "...".toList = R ++ "...".toList
            ∧ (R = [] ∨ ∃ rest, content = R ++ ' ' :: rest)) := by
  constructor
  · intro h
    unfold smart_truncate
    rw [if_pos h]
  · intro h
    have hnle : ¬ content.length ≤ 30 := not_le.mpr h
    have h283 : (30 : Nat) + 1 - ("...".toList).length = 28 := rfl
    unfold smart_truncate
    rw [if_neg hnle, h283]
    by_cases hdl : (pySplit (content.take 28)).dropLast = []
    · rw [hdl]
      exact ⟨by decide, [], by simp [pyJoin], Or.inl rfl⟩
    · have hps : pySplit (content.take 28) ≠ [] := pySplit_ne_nil _
      have hdecomp : pySplit (content.take 28) =
          (pySplit (content.take 28)).dropLast ++
            [(pySplit (content.take 28)).getLast hps] :=
        (List.dropLast_append_getLast hps).symm
      have hjoin : content.take 28 =
          pyJoin ((pySplit (content.take 28)).dropLast) ++ ' ' ::
            (pySplit (content.take 28)).getLast hps := by
        conv_lhs => rw [← pyJoin_pySplit (content.take 28)]
        conv_lhs => rw [hdecomp]
        rw [pyJoin_append_singleton _ _ hdl]
      have hlen28 : (content.take 28).length = 28 := by
        rw [List.length_take]
        omega
      have hRlen : (pyJoin ((pySplit (content.take 28)).dropLast)).length ≤ 27 := by
        have hc := congrArg List.length hjoin
        rw [hlen28] at hc
        simp only [List.length_append, List.length_cons] at hc
        omega
      refine ⟨?_, pyJoin ((pySplit (content.take 28)).dropLast), rfl,
        Or.inr ⟨(pySplit (content.take 28)).getLast hps ++ content.drop 28, ?_⟩⟩
      · simp only [List.length_append]
        have hsuf : ("...".toList).length = 3 := rfl
        omega
      · conv_lhs => rw [← List.take_append_drop 28 content]
        conv_lhs => rw [hjoin]
        simp [List.append_assoc]

/-- Witness for C8: a short title is unchanged; a long title is truncated to
within the bound. -/
theorem c8_smart_truncate_witness :
    smart_truncate "short title".toList 30 "...".toList = "short title".toList
    ∧ (smart_truncate "A Very Long Title About Something Else".toList 30
        "...".toList).length ≤ 30 := by
  refine ⟨(c8_smart_truncate _).1 (by decide),
    ((c8_smart_truncate _).2 (by decide)).1⟩

/-- C9: when candidate computation is invoked while the completion target
still holds its initial idle value "none" (set by the constructor), it
returns the empty candidate list and runs neither the bibliography indexer
nor the label indexer: apart from the lazy main-directory resolution, every
component of the state (target, file records, cached data, label table, hit
counter) is unchanged. -/
theorem c9_idle_no_indexing (w : World) (st : CompleterState) (filepath : FPath)
    (h : st.completionTarget = "none") :
    initialState.completionTarget = "none"
    ∧ ComputeCandidatesInner w st filepath =
        some ((if st.mainDirectory.isNone then (ComputeMainDirectory w st filepath).1
          else st), [])
    ∧ (if st.mainDirectory.isNone then (ComputeMainDirectory w st filepath).1
        else st).completionTarget = st.completionTarget
    ∧ (if st.mainDirectory.isNone then (ComputeMainDirectory w st filepath).1
        else st).files = st.files
    ∧ (if st.mainDirectory.isNone then (ComputeMainDirectory w st filepath).1
        else st).cachedData = st.cachedData
    ∧ (if st.mainDirectory.isNone then (ComputeMainDirectory w st filepath).1
        else st).gotoLabels = st.gotoLabels
    ∧ (if st.mainDirectory.isNone then (ComputeMainDirectory w st filepath).1
        else st).dCacheHits = st.dCacheHits := by
  have hfields : (if st.mainDirectory.isNone then (ComputeMainDirectory w st filepath).1
        else st).completionTarget = st.completionTarget
      ∧ (if st.mainDirectory.isNone then (ComputeMainDirectory w st filepath).1
          else st).files = st.files
      ∧ (if st.mainDirectory.isNone then (ComputeMainDirectory w st filepath).1
          else st).cachedData = st.cachedData
      ∧ (if st.mainDirectory.isNone then (ComputeMainDirectory w st filepath).1
          else st).gotoLabels = st.gotoLabels
      ∧ (if st.mainDirectory.isNone then (ComputeMainDirectory w st filepath).1
          else st).dCacheHits = st.dCacheHits := by
    unfold ComputeMainDirectory
    cases st.mainDirectory with
    | none =>
      cases FindMain w ".bib" filepath.dropLast <;> exact ⟨rfl, rfl, rfl, rfl, rfl⟩
    | some d => exact ⟨rfl, rfl, rfl, rfl, rfl⟩
  have hct : (if st.mainDirectory.isNone then (ComputeMainDirectory w st filepath).1
      else st).completionTarget = "none" := hfields.1.trans h
  refine ⟨rfl, ?_, hfields.1, hfields.2.1, hfields.2.2.1, hfields.2.2.2.1,
    hfields.2.2.2.2⟩
  unfold ComputeCandidatesInner
  dsimp only
  rw [hct]
  rw [if_neg (show ¬("none" : String) = "cite" by decide),
      if_neg (show ¬("none" : String) = "label" by decide),
      if_neg (show ¬("none" : String) = "all" by decide)]

/-- Witness for C9: invoking candidate computation on the freshly
constructed state yields no candidates. -/
theorem c9_idle_no_indexing_witness :
    initialState.completionTarget = "none"
    ∧ ComputeCandidatesInner ⟨[["a", "doc.tex"]], fun _ => 0, fun _ => []⟩
        initialState ["a", "doc.tex"] =
        some ((if initialState.mainDirectory.isNone
          then (ComputeMainDirectory ⟨[["a", "doc.tex"]], fun _ => 0, fun _ => []⟩
            initialState ["a", "doc.tex"]).1
          else initialState), [])
    ∧ (if initialState.mainDirectory.isNone
        then (ComputeMainDirectory ⟨[["a", "doc.tex"]], fun _ => 0, fun _ => []⟩
          initialState ["a", "doc.tex"]).1
        else initialState).completionTarget = initialState.completionTarget
    ∧ (if initialState.mainDirectory.isNone
        then (ComputeMainDirectory ⟨[["a", "doc.tex"]], fun _ => 0, fun _ => []⟩
          initialState ["a", "doc.tex"]).1
        else initialState).files = initialState.files
    ∧ (if initialState.mainDirectory.isNone
        then (ComputeMainDirectory ⟨[["a", "doc.tex"]], fun _ => 0, fun _ => []⟩
          initialState ["a", "doc.tex"]).1
        else initialState).cachedData = initialState.cachedData
    ∧ (if initialState.mainDirectory.isNone
        then (ComputeMainDirectory ⟨[["a", "doc.tex"]], fun _ => 0, fun _ => []⟩
          initialState ["a", "doc.tex"]).1
        else initialState).gotoLabels = initialState.gotoLabels
    ∧ (if initialState.mainDirectory.isNone
        then (ComputeMainDirectory ⟨[["a", "doc.tex"]], fun _ => 0, fun _ => []⟩
          initialState ["a", "doc.tex"]).1
        else initialState).dCacheHits = initialState.dCacheHits :=
  c9_idle_no_indexing ⟨[["a", "doc.tex"]], fun _ => 0, fun _ => []⟩
    initialState ["a", "doc.tex"] rfl
